import Mathlib

/-!
Shallow embedding of the reconciliation engine of gdrive-folder-sync
(src/config.ts, src/sync.ts, src/gdrive.ts).

Modelling conventions:
* `Record<string, T>` objects are association lists with JS-object key
  semantics: setting an existing key overwrites in place, setting a new key
  appends, `delete` removes the key; `Object.keys` order is the list order.
* Timestamps (`mtimeMs`, `new Date(modifiedTime).getTime()`) are `Int`;
  the code only compares them, so the remote `modifiedTime` string is
  modelled directly by its `getTime()` value.
* File contents are `String`.
* Remote calls (`GDriveClient` methods) are oracles supplied as an
  environment of functions returning `Except Unit _`; `Except.error ()`
  models a thrown error. Every remote call made is recorded in a trace,
  paired with the relative path the engine made it for.
* The local filesystem is a finite map from path to entry; `fs.writeFileSync`
  during pull stores the file with the mtime the oracle `writeMtime` reports
  (the code stats the file right after writing it).
-/

namespace GDriveSync

/-! ### Association lists with JS object key semantics -/

def lookupKey {α : Type} : List (String × α) → String → Option α
  | [], _ => none
  | (k', v) :: rest, k => if k' = k then some v else lookupKey rest k

def hasKey {α : Type} : List (String × α) → String → Bool
  | [], _ => false
  | (k', _) :: rest, k => if k' = k then true else hasKey rest k

def setKey {α : Type} : List (String × α) → String → α → List (String × α)
  | [], k, v => [(k, v)]
  | (k', v') :: rest, k, v =>
    if k' = k then (k, v) :: rest else (k', v') :: setKey rest k v

def eraseKey {α : Type} (m : List (String × α)) (k : String) : List (String × α) :=
  m.filter (fun p => decide (p.1 ≠ k))

/-! ### Path helpers (POSIX `path` module, on separator-normalized inputs) -/

def splitOnCharAux (c : Char) : List Char → List Char → List (List Char)
  | [], acc => [acc.reverse]
  | x :: rest, acc =>
    if x = c then acc.reverse :: splitOnCharAux c rest []
    else splitOnCharAux c rest (x :: acc)

/-- Split a string on a separator character; models `String.split` /
`relativePath.split(path.sep)` with `path.sep = '/'`. -/
def splitOnChar (c : Char) (s : String) : List String :=
  (splitOnCharAux c s.data []).map String.mk

/-- Model of `path.join(a, b)` for a normalized directory `a` and relative `b`. -/
def pathJoin (a b : String) : String := a ++ "/" ++ b

/-- Model of `path.basename` for normalized relative paths: the last
`/`-separated component. -/
def pathBasename (s : String) : String :=
  (splitOnChar '/' s).getLast!

/-- Model of `path.dirname` for normalized relative paths: all components but
the last joined by `/`, and `"."` when there is a single component. -/
def pathDirname (s : String) : String :=
  let parts := splitOnChar '/' s
  if parts.length ≤ 1 then "."
  else String.intercalate "/" (parts.dropLast)

def dropPrefixChars : List Char → List Char → Option (List Char)
  | [], rest => some rest
  | _ :: _, [] => none
  | p :: ps, x :: xs => if p = x then dropPrefixChars ps xs else none

/-- Model of `s.startsWith(pre)`. -/
def strStartsWith (s pre : String) : Bool :=
  (dropPrefixChars pre.data s.data).isSome

/-- Model of `path.relative(root, abs)` in the shape the engine uses it:
strips the `root ++ "/"` prefix from `abs`. -/
def getRelativePath (root abs : String) : String :=
  match dropPrefixChars (root.data ++ ['/']) abs.data with
  | some rest => String.mk rest
  | none => abs

/-! ### Data model (src/sync.ts types, src/gdrive.ts `GDriveFile`) -/

/-- `FileState` from src/sync.ts. -/
structure FileState where
  gdriveId : String
  localMtime : Int
  gdriveMtime : Int
deriving Repr, DecidableEq

/-- `SyncState` from src/sync.ts: `files` maps relative path to `FileState`,
`folders` maps relative folder path to its GDrive id. -/
structure SyncState where
  files : List (String × FileState)
  folders : List (String × String)
deriving Repr, DecidableEq

/-- `GDriveFile` from src/gdrive.ts, with `modifiedTime` already converted to
its `getTime()` value. -/
structure GDriveFile where
  id : String
  name : String
  mimeType : String
  modifiedTime : Int
deriving Repr, DecidableEq

/-- One local filesystem entry: directory flag, `mtimeMs`, content. -/
structure LocalEntry where
  isDir : Bool
  mtime : Int
  content : String
deriving Repr, DecidableEq

/-- The local filesystem: a finite map from path to entry. -/
abbrev LocalFs : Type := List (String × LocalEntry)

/-- The parts of `Config` the sync engine reads. -/
structure Config where
  localPath : String
  gdriveFolderId : String
deriving Repr, DecidableEq

/-- `fs.existsSync`. -/
def localExists (fsys : LocalFs) (p : String) : Bool :=
  (lookupKey fsys p).isSome

/-- `fs.statSync(p).mtimeMs` (0 when absent; the engine only stats paths it
has checked exist). -/
def statMtime (fsys : LocalFs) (p : String) : Int :=
  match lookupKey fsys p with
  | some e => e.mtime
  | none => 0

/-- `fs.statSync(p).isDirectory()`. -/
def statIsDir (fsys : LocalFs) (p : String) : Bool :=
  match lookupKey fsys p with
  | some e => e.isDir
  | none => false

/-! ### Exclusion (src/config.ts) -/

def CONFIG_FILENAME : String := ".gdrive-folder-sync.json"

def STATE_FILENAME : String := ".gdrive-folder-sync-state.json"

/-- `getExcludedFiles` from src/config.ts. -/
def getExcludedFiles : List String := [CONFIG_FILENAME, STATE_FILENAME, ".DS_Store"]

/-- `SyncEngine.isExcluded`: matches the basename against the excluded list. -/
def isExcluded (relativePath : String) : Bool :=
  getExcludedFiles.contains (pathBasename relativePath)

/-! ### Conflict resolver (`shouldDownloadFile`, src/sync.ts) -/

/-- The three results of `shouldDownloadFile`:
`download` / `skip` / `local-newer`. -/
inductive PullAction where
  | download
  | skip
  | localNewer
deriving Repr, DecidableEq

/-- `SyncEngine.shouldDownloadFile` from src/sync.ts, transcribed branch by
branch. `st` is `this.state`, `fsys` the local filesystem. -/
def shouldDownloadFile (st : SyncState) (fsys : LocalFs)
    (relativePath localPath : String) (remoteMtime : Int) : PullAction :=
  match lookupKey st.files relativePath with
  | none =>
    if ¬ localExists fsys localPath then .download
    else
      let localMtime := statMtime fsys localPath
      if remoteMtime > localMtime then .download
      else .localNewer
  | some existing =>
    if remoteMtime ≤ existing.gdriveMtime then .skip
    else if ¬ localExists fsys localPath then .download
    else
      let localMtime := statMtime fsys localPath
      if localMtime ≤ existing.localMtime then .download
      else if remoteMtime > localMtime then .download
      else .localNewer

/-! ### Remote store oracle and operation traces -/

/-- One remote (GDrive) call, as recorded in a trace. The constructors mirror
the `GDriveClient` methods the sync engine calls. -/
inductive RemoteOp where
  | update (id content : String)
  | upload (name content parentId : String)
  | find (name parentId : String)
  | create (name parentId : String)
  | delete (id : String)
  | download (id : String)
deriving Repr, DecidableEq

/-- A traced remote call: the relative path the engine made the call for
(for folder calls, the cumulative folder path), paired with the call. -/
abbrev Trace : Type := List (String × RemoteOp)

/-- One local filesystem mutation performed by the engine. The vocabulary is
the `fs` capability set the engine imports (`writeFileSync`, `mkdirSync`,
`unlinkSync`). -/
inductive FsOp where
  | write (p : String)
  | mkdir (p : String)
  | unlink (p : String)
deriving Repr, DecidableEq

/-- Oracle for the outcomes of `GDriveClient` calls. `Except.error ()` models
the method throwing. -/
structure GDriveEnv where
  updateFile : String → String → Except Unit GDriveFile
  uploadFile : String → String → String → Except Unit GDriveFile
  findFolder : String → String → Except Unit (Option GDriveFile)
  createFolder : String → String → Except Unit GDriveFile
  deleteFile : String → Except Unit Unit
  downloadFile : String → Except Unit String

/-! ### Folder path resolver (`ensureFolderExists`, src/sync.ts) -/

/-- Loop body of `ensureFolderExists`: walks the remaining parts with the
running `currentPath` and `parentId`, consulting `state.folders`, then
`findFolder`, then `createFolder`. Returns the resulting parent id (or the
propagated error), the state as mutated so far, and the trace of remote
calls made. -/
def ensureFolderLoop (env : GDriveEnv) :
    List String → String → String → SyncState → Except Unit String × SyncState × Trace
  | [], _, parentId, st => (.ok parentId, st, [])
  | part :: rest, currentPath, parentId, st =>
    let currentPath' := if currentPath = "" then part else currentPath ++ "/" ++ part
    match lookupKey st.folders currentPath' with
    | some existingId => ensureFolderLoop env rest currentPath' existingId st
    | none =>
      match env.findFolder part parentId with
      | .error _ => (.error (), st, [(currentPath', .find part parentId)])
      | .ok (some existing) =>
        let st' : SyncState := ⟨st.files, setKey st.folders currentPath' existing.id⟩
        let (r, st'', tr) := ensureFolderLoop env rest currentPath' existing.id st'
        (r, st'', (currentPath', .find part parentId) :: tr)
      | .ok none =>
        match env.createFolder part parentId with
        | .error _ =>
          (.error (), st, [(currentPath', .find part parentId), (currentPath', .create part parentId)])
        | .ok folder =>
          let st' : SyncState := ⟨st.files, setKey st.folders currentPath' folder.id⟩
          let (r, st'', tr) := ensureFolderLoop env rest currentPath' folder.id st'
          (r, st'',
            (currentPath', .find part parentId) :: (currentPath', .create part parentId) :: tr)

/-- `SyncEngine.ensureFolderExists` from src/sync.ts. -/
def ensureFolderExists (cfg : Config) (env : GDriveEnv) (st : SyncState)
    (relativePath : String) : Except Unit String × SyncState × Trace :=
  ensureFolderLoop env (splitOnChar '/' relativePath) "" cfg.gdriveFolderId st

/-! ### Push reconciler (`push` and `handleLocalDelete`, src/sync.ts) -/

/-- `SyncEngine.handleLocalDelete` from src/sync.ts: if the path is tracked,
call `deleteFile` (catching and logging any error) and drop the record.
The result is not `Except`: the method never throws. -/
def handleLocalDelete (env : GDriveEnv) (st : SyncState) (relativePath : String) :
    SyncState × Trace :=
  match lookupKey st.files relativePath with
  | none => (st, [])
  | some existing =>
    let _call := env.deleteFile existing.gdriveId
    (⟨eraseKey st.files relativePath, st.folders⟩, [(relativePath, .delete existing.gdriveId)])

/-- Result of processing a batch: whether it completed without a thrown
error, the resulting in-memory state, the remote-call trace, and whether
`saveState` ran (the save at the end is skipped when an error propagates). -/
structure PushResult where
  ok : Bool
  state : SyncState
  trace : Trace
  saved : Bool
deriving Repr, DecidableEq

/-- One iteration of the `push` loop body for a single absolute path,
transcribed from src/sync.ts. Returns `ok = false` when a remote call threw,
together with the state and trace at that point. -/
def pushOne (cfg : Config) (env : GDriveEnv) (fsys : LocalFs) (st : SyncState)
    (absolutePath : String) : Bool × SyncState × Trace :=
  let relativePath := getRelativePath cfg.localPath absolutePath
  if isExcluded relativePath then (true, st, [])
  else if ¬ localExists fsys absolutePath then
    let (st', tr) := handleLocalDelete env st relativePath
    (true, st', tr)
  else if statIsDir fsys absolutePath then (true, st, [])
  else
    let content := match lookupKey fsys absolutePath with
      | some e => e.content
      | none => ""
    let localMtime := statMtime fsys absolutePath
    match lookupKey st.files relativePath with
    | some existing =>
      match env.updateFile existing.gdriveId content with
      | .error _ => (false, st, [(relativePath, .update existing.gdriveId content)])
      | .ok updated =>
        (true,
          ⟨setKey st.files relativePath
            ⟨existing.gdriveId, localMtime, updated.modifiedTime⟩, st.folders⟩,
          [(relativePath, .update existing.gdriveId content)])
    | none =>
      let dir := pathDirname relativePath
      let parentRes : Except Unit String × SyncState × Trace :=
        if dir = "." then (.ok cfg.gdriveFolderId, st, [])
        else ensureFolderExists cfg env st dir
      match parentRes with
      | (.error _, st1, tr1) => (false, st1, tr1)
      | (.ok parentId, st1, tr1) =>
        match env.uploadFile (pathBasename relativePath) content parentId with
        | .error _ =>
          (false, st1, tr1 ++ [(relativePath, .upload (pathBasename relativePath) content parentId)])
        | .ok created =>
          (true,
            ⟨setKey st1.files relativePath
              ⟨created.id, localMtime, created.modifiedTime⟩, st1.folders⟩,
            tr1 ++ [(relativePath, .upload (pathBasename relativePath) content parentId)])

/-- The `for` loop of `SyncEngine.push`: processes paths in order, stopping
at the first path whose processing throws. -/
def pushLoop (cfg : Config) (env : GDriveEnv) (fsys : LocalFs) :
    SyncState → List String → Bool × SyncState × Trace
  | st, [] => (true, st, [])
  | st, p :: rest =>
    let r := pushOne cfg env fsys st p
    if r.1 then
      let r2 := pushLoop cfg env fsys r.2.1 rest
      (r2.1, r2.2.1, r.2.2 ++ r2.2.2)
    else (false, r.2.1, r.2.2)

/-- `SyncEngine.push` from src/sync.ts: the loop, then `saveState` — which is
reached (`saved = true`) only when no iteration threw. -/
def push (cfg : Config) (env : GDriveEnv) (fsys : LocalFs) (st : SyncState)
    (absolutePaths : List String) : PushResult :=
  let r := pushLoop cfg env fsys st absolutePaths
  ⟨r.1, r.2.1, r.2.2, r.1⟩

/-! ### Pull reconciler (`pull`, src/sync.ts) -/

/-- The first loop of `pull`: record the GDrive id of every folder-typed
entry of the remote listing in `state.folders`. -/
def updateFoldersFromListing : List (String × GDriveFile) → SyncState → SyncState
  | [], st => st
  | (rp, f) :: rest, st =>
    if f.mimeType = "application/vnd.google-apps.folder" then
      updateFoldersFromListing rest ⟨st.files, setKey st.folders rp f.id⟩
    else updateFoldersFromListing rest st

/-- The per-file loop of `pull`: skip excluded and provider-native entries,
evaluate `shouldDownloadFile`, then download / record-and-collect / skip.
A `downloadFile` error propagates, aborting the rest of the pass
(first component `false`). -/
def pullMainLoop (cfg : Config) (env : GDriveEnv) (wm : String → Int) :
    List (String × GDriveFile) → SyncState → LocalFs →
    Bool × SyncState × LocalFs × Trace × List FsOp × List String
  | [], st, fsys => (true, st, fsys, [], [], [])
  | (rp, f) :: rest, st, fsys =>
    if isExcluded rp then pullMainLoop cfg env wm rest st fsys
    else if strStartsWith f.mimeType "application/vnd.google-apps." then
      pullMainLoop cfg env wm rest st fsys
    else
      let localPath := pathJoin cfg.localPath rp
      let remoteMtime := f.modifiedTime
      match shouldDownloadFile st fsys rp localPath remoteMtime with
      | .download =>
        match env.downloadFile f.id with
        | .error _ => (false, st, fsys, [(rp, .download f.id)], [], [])
        | .ok content =>
          let m := wm localPath
          let fsys' := setKey fsys localPath ⟨false, m, content⟩
          let st' : SyncState := ⟨setKey st.files rp ⟨f.id, m, remoteMtime⟩, st.folders⟩
          let r := pullMainLoop cfg env wm rest st' fsys'
          (r.1, r.2.1, r.2.2.1, (rp, .download f.id) :: r.2.2.2.1,
            .mkdir (pathDirname localPath) :: .write localPath :: r.2.2.2.2.1, r.2.2.2.2.2)
      | .localNewer =>
        let st' : SyncState :=
          ⟨setKey st.files rp ⟨f.id, statMtime fsys localPath, remoteMtime⟩, st.folders⟩
        let r := pullMainLoop cfg env wm rest st' fsys
        (r.1, r.2.1, r.2.2.1, r.2.2.2.1, r.2.2.2.2.1, localPath :: r.2.2.2.2.2)
      | .skip => pullMainLoop cfg env wm rest st fsys

/-- The stale-record loop of `pull`, over a snapshot of `Object.keys(files)`:
records whose path is absent from the remote listing are dropped, and when
the local file still exists its path joins the needs-push batch. -/
def pullStaleLoop (cfg : Config) (remoteFiles : List (String × GDriveFile)) :
    List String → SyncState → LocalFs → SyncState × List String
  | [], st, _ => (st, [])
  | rp :: rest, st, fsys =>
    if hasKey remoteFiles rp then pullStaleLoop cfg remoteFiles rest st fsys
    else
      let localPath := pathJoin cfg.localPath rp
      let st' : SyncState := ⟨eraseKey st.files rp, st.folders⟩
      if localExists fsys localPath then
        let r := pullStaleLoop cfg remoteFiles rest st' fsys
        (r.1, localPath :: r.2)
      else pullStaleLoop cfg remoteFiles rest st' fsys

/-- Result of a pull pass: whether it completed, the state, the local
filesystem, both traces, the returned needs-push batch, and whether
`saveState` ran. -/
structure PullResult where
  ok : Bool
  state : SyncState
  fsys : LocalFs
  trace : Trace
  fsTrace : List FsOp
  filesToPush : List String
  saved : Bool
deriving Repr, DecidableEq

/-- `SyncEngine.pull` from src/sync.ts, parameterized by the remote listing
`remoteFiles` (the result of `listFilesRecursive` taken at the start of the
pass). On a thrown download error nothing is returned to the caller
(`filesToPush = []`), the stale loop does not run and the save is skipped. -/
def pull (cfg : Config) (env : GDriveEnv) (wm : String → Int)
    (remoteFiles : List (String × GDriveFile)) (st0 : SyncState) (fsys0 : LocalFs) :
    PullResult :=
  let st1 := updateFoldersFromListing remoteFiles st0
  let r := pullMainLoop cfg env wm remoteFiles st1 fsys0
  if r.1 then
    let r2 := pullStaleLoop cfg remoteFiles (r.2.1.files.map Prod.fst) r.2.1 r.2.2.1
    ⟨true, r2.1, r.2.2.1, r.2.2.2.1, r.2.2.2.2.1, r.2.2.2.2.2 ++ r2.2, true⟩
  else ⟨false, r.2.1, r.2.2.1, r.2.2.2.1, r.2.2.2.2.1, [], false⟩

/-! ### Sequences of reconciliation passes -/

/-- One reconciliation pass together with the environment it observes. -/
inductive SyncOp where
  | pushOp (env : GDriveEnv) (fsys : LocalFs) (paths : List String)
  | pullOp (env : GDriveEnv) (wm : String → Int)
      (remoteFiles : List (String × GDriveFile)) (fsys : LocalFs)

/-- Run a sequence of push / pull passes from a state, collecting the
combined remote-call trace. -/
def runOps (cfg : Config) : SyncState → List SyncOp → SyncState × Trace
  | st, [] => (st, [])
  | st, op :: rest =>
    let step : SyncState × Trace :=
      match op with
      | .pushOp env fsys paths =>
        ((push cfg env fsys st paths).state, (push cfg env fsys st paths).trace)
      | .pullOp env wm remoteFiles fsys =>
        ((pull cfg env wm remoteFiles st fsys).state, (pull cfg env wm remoteFiles st fsys).trace)
    let r := runOps cfg step.1 rest
    (r.1, step.2 ++ r.2)

/-! ### State store (`loadState`, src/sync.ts) -/

/-- JSON values, for the persisted state document. -/
inductive Json where
  | null
  | bool (b : Bool)
  | num (n : Int)
  | str (s : String)
  | arr (elems : List Json)
  | obj (fields : List (String × Json))
deriving Repr

/-- The JSON encoding of the empty state document. -/
def emptyStateJson : Json := .obj [("files", .obj []), ("folders", .obj [])]

/-- `SyncEngine.loadState` from src/sync.ts: `JSON.parse` the file content,
and on ANY throw (unreadable file or a JSON syntax error) fall back to the
empty document. The argument is the outcome of `JSON.parse(readFileSync(...))`:
`.error ()` when reading or parsing threw, `.ok j` with the parsed value
otherwise. The parsed value is returned as is — there is no validation
against the `SyncState` shape. -/
def loadState (readResult : Except Unit Json) : Json :=
  match readResult with
  | .ok j => j
  | .error _ => emptyStateJson

def isNumJson : Json → Bool
  | .num _ => true
  | _ => false

def isStrJson : Json → Bool
  | .str _ => true
  | _ => false

def allFieldsSat (p : Json → Bool) : List (String × Json) → Bool
  | [] => true
  | (_, v) :: rest => p v && allFieldsSat p rest

/-- A JSON value that is a valid `FileState` record (the TS type from
src/sync.ts). -/
def isFileStateJson : Json → Bool
  | .obj fields =>
    match lookupKey fields "gdriveId", lookupKey fields "localMtime",
        lookupKey fields "gdriveMtime" with
    | some g, some l, some m => isStrJson g && isNumJson l && isNumJson m
    | _, _, _ => false
  | _ => false

/-- A JSON value that is a valid `SyncState` document (the TS type from
src/sync.ts): an object with a `files` object of `FileState` records and a
`folders` object of strings. -/
def isValidSyncState (j : Json) : Bool :=
  match j with
  | .obj fields =>
    match lookupKey fields "files", lookupKey fields "folders" with
    | some (.obj fileFields), some (.obj folderFields) =>
      allFieldsSat isFileStateJson fileFields && allFieldsSat isStrJson folderFields
    | _, _ => false
  | _ => false

/-- The cumulative `currentPath` values the `ensureFolderExists` loop walks
through for the given parts, starting from `currentPath`. -/
def cumulPrefixes : List String → String → List String
  | [], _ => []
  | part :: rest, currentPath =>
    let cp := if currentPath = "" then part else currentPath ++ "/" ++ part
    cp :: cumulPrefixes rest cp

/-- The remote calls the spec says must never see an excluded path: content
transfers and deletion (`upload` / `download` / `update` / `delete`), as
opposed to the folder-resolution calls. -/
def isTransferOp : RemoteOp → Bool
  | .update _ _ => true
  | .upload _ _ _ => true
  | .delete _ => true
  | .download _ => true
  | .find _ _ => false
  | .create _ _ => false

/-- No excluded name is a key of the `files` map. -/
def noExcludedFileKeys (st : SyncState) : Prop :=
  ∀ k, isExcluded k = true → lookupKey st.files k = none

/-- A remote-store oracle in which every call throws. -/
def failEnv : GDriveEnv :=
  ⟨fun _ _ => .error (), fun _ _ _ => .error (), fun _ _ => .error (),
   fun _ _ => .error (), fun _ => .error (), fun _ => .error ()⟩

/-- A remote-store oracle in which every call succeeds, `findFolder` finding
nothing. -/
def okEnv : GDriveEnv :=
  ⟨fun _ _ => .ok ⟨"uid", "n", "text/plain", 2⟩,
   fun _ _ _ => .ok ⟨"fid", "n", "text/plain", 2⟩,
   fun _ _ => .ok none,
   fun _ _ => .ok ⟨"did", "n", "application/vnd.google-apps.folder", 0⟩,
   fun _ => .ok (),
   fun _ => .ok "content"⟩

/-- A remote-store oracle whose `findFolder` always finds an existing
folder. -/
def foundEnv : GDriveEnv :=
  ⟨fun _ _ => .error (), fun _ _ _ => .error (),
   fun _ _ => .ok (some ⟨"fid", "n", "application/vnd.google-apps.folder", 0⟩),
   fun _ _ => .error (), fun _ => .error (), fun _ => .error ()⟩

/-! ### Map and path helper lemmas -/

theorem lookupKey_isSome_iff_hasKey {α : Type} (m : List (String × α)) (k : String) :
    (lookupKey m k).isSome = hasKey m k := by
  induction m with
  | nil => rfl
  | cons p rest ih =>
    obtain ⟨k', v⟩ := p
    simp only [lookupKey, hasKey]
    split <;> simp [ih]

theorem lookupKey_setKey_self {α : Type} (m : List (String × α)) (k : String) (v : α) :
    lookupKey (setKey m k v) k = some v := by
  induction m with
  | nil => simp [setKey, lookupKey]
  | cons p rest ih =>
    obtain ⟨k', v'⟩ := p
    simp only [setKey]
    by_cases hk : k' = k
    · simp [hk, lookupKey]
    · simp only [if_neg hk, lookupKey, if_neg hk]
      exact ih

theorem lookupKey_setKey_ne {α : Type} (m : List (String × α)) (k k' : String) (v : α)
    (h : k' ≠ k) : lookupKey (setKey m k v) k' = lookupKey m k' := by
  induction m with
  | nil =>
    simp only [setKey, lookupKey]
    rw [if_neg (fun hh : k = k' => h hh.symm)]
  | cons p rest ih =>
    obtain ⟨ka, va⟩ := p
    simp only [setKey]
    by_cases hk : ka = k
    · subst hk
      simp only [lookupKey]
      rw [if_neg (fun hh : ka = k' => h hh.symm), if_neg (fun hh : ka = k' => h hh.symm)]
    · simp only [if_neg hk, lookupKey]
      split <;> simp_all

theorem lookupKey_eraseKey_self {α : Type} (m : List (String × α)) (k : String) :
    lookupKey (eraseKey m k) k = none := by
  induction m with
  | nil => rfl
  | cons p rest ih =>
    obtain ⟨k', v⟩ := p
    simp only [eraseKey, List.filter]
    by_cases hk : k' = k
    · simpa [hk, eraseKey] using ih
    · simpa [hk, eraseKey, lookupKey] using ih

theorem lookupKey_eraseKey_ne {α : Type} (m : List (String × α)) (k k' : String)
    (h : k' ≠ k) : lookupKey (eraseKey m k) k' = lookupKey m k' := by
  induction m with
  | nil => rfl
  | cons p rest ih =>
    obtain ⟨ka, va⟩ := p
    by_cases hka : ka = k
    · subst hka
      have he : eraseKey ((ka, va) :: rest) ka = eraseKey rest ka := by
        simp [eraseKey, List.filter]
      have hl : lookupKey ((ka, va) :: rest) k' = lookupKey rest k' := by
        simp only [lookupKey]
        rw [if_neg (fun hh : ka = k' => h hh.symm)]
      rw [he, ih, ← hl]
    · have he : eraseKey ((ka, va) :: rest) k = (ka, va) :: eraseKey rest k := by
        simp [eraseKey, List.filter, hka]
      rw [he]
      simp only [lookupKey]
      split
      · rfl
      · exact ih

theorem dropPrefixChars_append (p r : List Char) : dropPrefixChars p (p ++ r) = some r := by
  induction p with
  | nil => rfl
  | cons x xs ih => simp [dropPrefixChars, ih]

theorem getRelativePath_pathJoin (root rp : String) :
    getRelativePath root (pathJoin root rp) = rp := by
  unfold getRelativePath pathJoin
  have hdata : (root ++ "/" ++ rp).data = (root.data ++ ['/']) ++ rp.data := by
    simp [String.data_append]
  rw [hdata, dropPrefixChars_append]

theorem pathJoin_right_inj (root a b : String) (h : pathJoin root a = pathJoin root b) :
    a = b := by
  unfold pathJoin at h
  have h2 : (root ++ "/" ++ a).data = (root ++ "/" ++ b).data := by rw [h]
  simp only [String.data_append, List.append_assoc, List.append_cancel_left_eq] at h2
  cases a; cases b; simp_all


/-! ### C6: state loading -/

/-- Counterexample to C6 as stated: the persisted content `123` parses as
JSON, so `JSON.parse` does not throw, and `loadState` returns the parsed
value unchanged even though it is not a valid `SyncState` document — the
empty document is NOT substituted. -/
theorem loadState_invalid_passthrough_cex :
    isValidSyncState (Json.num 123) = false ∧
    loadState (.ok (Json.num 123)) = Json.num 123 ∧
    loadState (.ok (Json.num 123)) ≠ emptyStateJson := by
  refine ⟨rfl, rfl, ?_⟩
  simp [loadState, emptyStateJson]

/-- C6 amended: `loadState` never fails; a missing/unreadable file or a JSON
syntax error (`.error ()`) yields the empty document (which is a valid
`SyncState`), while successfully parsed JSON is returned as is, with no
validation against the `SyncState` shape. -/
theorem loadState_never_fails (r : Except Unit Json) :
    (r = .error () → loadState r = emptyStateJson) ∧
    (r = .error () → isValidSyncState (loadState r) = true) ∧
    (∀ j, r = .ok j → loadState r = j) := by
  refine ⟨fun h => ?_, fun h => ?_, fun j h => ?_⟩ <;> subst h <;> rfl

/-- Witness for the amended C6 at the concrete input `.error ()`. -/
theorem loadState_never_fails_witness :
    loadState (.error ()) = emptyStateJson ∧
    isValidSyncState (loadState (.error ())) = true :=
  ⟨(loadState_never_fails (.error ())).1 rfl, (loadState_never_fails (.error ())).2.1 rfl⟩

/-! ### C1 / C2: the conflict decision function -/

/-- C1: for a tracked file, `shouldDownloadFile` returns `skip` iff the
current remote mtime is at most the record's `gdriveMtime`; otherwise a
missing local copy or an unchanged local mtime gives `download`; otherwise
(both sides changed) it gives `download` exactly when the remote mtime is
strictly greater than the local one and `localNewer` otherwise, so exactly
equal mtimes resolve to `localNewer` (local wins). -/
theorem shouldDownloadFile_tracked_decision (st : SyncState) (fsys : LocalFs)
    (rp lp : String) (rm : Int) (tr : FileState)
    (h : lookupKey st.files rp = some tr) :
    (shouldDownloadFile st fsys rp lp rm = .skip ↔ rm ≤ tr.gdriveMtime) ∧
    (tr.gdriveMtime < rm → localExists fsys lp = false →
      shouldDownloadFile st fsys rp lp rm = .download) ∧
    (tr.gdriveMtime < rm → localExists fsys lp = true →
      statMtime fsys lp ≤ tr.localMtime →
      shouldDownloadFile st fsys rp lp rm = .download) ∧
    (tr.gdriveMtime < rm → localExists fsys lp = true →
      tr.localMtime < statMtime fsys lp →
      ((shouldDownloadFile st fsys rp lp rm = .download ↔ statMtime fsys lp < rm) ∧
       (shouldDownloadFile st fsys rp lp rm = .localNewer ↔ rm ≤ statMtime fsys lp))) := by
  have hd : shouldDownloadFile st fsys rp lp rm =
      (if rm ≤ tr.gdriveMtime then .skip
       else if ¬ localExists fsys lp then .download
       else if statMtime fsys lp ≤ tr.localMtime then .download
       else if rm > statMtime fsys lp then .download
       else .localNewer) := by
    unfold shouldDownloadFile
    rw [h]
  rw [hd]
  split_ifs <;> simp_all

/-- Witness for C1 at a concrete input: both sides changed since the
baseline `(5, 10)` and the current mtimes are exactly equal (20 = 20), so
the tie resolves to `localNewer`. -/
theorem shouldDownloadFile_tracked_decision_witness :
    shouldDownloadFile ⟨[("a.txt", ⟨"id1", 5, 10⟩)], []⟩
      [("/r/a.txt", ⟨false, 20, "x"⟩)] "a.txt" "/r/a.txt" 20 = .localNewer := by
  have h := shouldDownloadFile_tracked_decision ⟨[("a.txt", ⟨"id1", 5, 10⟩)], []⟩
    [("/r/a.txt", ⟨false, 20, "x"⟩)] "a.txt" "/r/a.txt" 20 ⟨"id1", 5, 10⟩ (by decide)
  exact (h.2.2.2 (by decide) (by decide) (by decide)).2.mpr (by decide)

/-- C2: for an untracked file, `shouldDownloadFile` returns `download` when
no local copy exists; when one exists it returns `download` exactly when the
remote mtime is strictly greater than the local mtime and `localNewer`
otherwise (ties included). -/
theorem shouldDownloadFile_untracked_decision (st : SyncState) (fsys : LocalFs)
    (rp lp : String) (rm : Int)
    (h : lookupKey st.files rp = none) :
    (localExists fsys lp = false → shouldDownloadFile st fsys rp lp rm = .download) ∧
    (localExists fsys lp = true →
      ((shouldDownloadFile st fsys rp lp rm = .download ↔ statMtime fsys lp < rm) ∧
       (shouldDownloadFile st fsys rp lp rm = .localNewer ↔ rm ≤ statMtime fsys lp))) := by
  have hd : shouldDownloadFile st fsys rp lp rm =
      (if ¬ localExists fsys lp then .download
       else if rm > statMtime fsys lp then .download
       else .localNewer) := by
    unfold shouldDownloadFile
    rw [h]
  rw [hd]
  split_ifs <;> simp_all

/-- Witness for C2 at a concrete input: untracked, local copy with mtime 20
and remote mtime also 20 — the tie resolves to `localNewer`. -/
theorem shouldDownloadFile_untracked_decision_witness :
    shouldDownloadFile ⟨[], []⟩ [("/r/b.txt", ⟨false, 20, "y"⟩)] "b.txt" "/r/b.txt" 20
      = .localNewer := by
  have h := shouldDownloadFile_untracked_decision ⟨[], []⟩
    [("/r/b.txt", ⟨false, 20, "y"⟩)] "b.txt" "/r/b.txt" 20 (by decide)
  exact (h.2 (by decide)).2.mpr (by decide)

/-! ### C10: local deletion untracks whether or not the remote delete throws -/

/-- C10: when a tracked path no longer exists locally at push time, the push
iteration calls `deleteFile` and removes the record from `files` whatever the
outcome of that call (the error is caught), and the batch continues
(`ok = true`). The oracle `env` is arbitrary, so this covers both a
succeeding and a throwing remote delete. -/
theorem push_localDelete_untracks (cfg : Config) (env : GDriveEnv) (fsys : LocalFs)
    (st : SyncState) (p : String) (ex : FileState)
    (hexcl : isExcluded (getRelativePath cfg.localPath p) = false)
    (hmiss : localExists fsys p = false)
    (h : lookupKey st.files (getRelativePath cfg.localPath p) = some ex) :
    pushOne cfg env fsys st p =
      (true, ⟨eraseKey st.files (getRelativePath cfg.localPath p), st.folders⟩,
        [(getRelativePath cfg.localPath p, .delete ex.gdriveId)]) ∧
    lookupKey (eraseKey st.files (getRelativePath cfg.localPath p))
      (getRelativePath cfg.localPath p) = none := by
  refine ⟨?_, lookupKey_eraseKey_self _ _⟩
  unfold pushOne handleLocalDelete
  simp only [hexcl, hmiss, h]
  simp

/-- Witness for C10 at a concrete input, with an oracle whose `deleteFile`
throws: the record is dropped anyway and the iteration reports success. -/
theorem push_localDelete_untracks_witness :
    pushOne ⟨"/r", "root"⟩ failEnv [] ⟨[("a.txt", ⟨"id1", 1, 2⟩)], []⟩ "/r/a.txt" =
      (true, ⟨[], []⟩, [("a.txt", .delete "id1")]) :=
  ((push_localDelete_untracks ⟨"/r", "root"⟩ failEnv [] ⟨[("a.txt", ⟨"id1", 1, 2⟩)], []⟩
    "/r/a.txt" ⟨"id1", 1, 2⟩ (by decide) (by decide) (by decide)).1).trans (by decide)

/-! ### Folder resolver lemmas and C4 -/

theorem ensureFolderLoop_cached (env : GDriveEnv) (parts : List String)
    (currentPath parentId : String) (st : SyncState)
    (h : ∀ cp ∈ cumulPrefixes parts currentPath, hasKey st.folders cp = true) :
    (ensureFolderLoop env parts currentPath parentId st).2.2 = [] ∧
    (ensureFolderLoop env parts currentPath parentId st).2.1 = st := by
  induction parts generalizing currentPath parentId with
  | nil => exact ⟨rfl, rfl⟩
  | cons part rest ih =>
    simp only [cumulPrefixes, List.mem_cons] at h
    have hcp := h _ (Or.inl rfl)
    have hsome : (lookupKey st.folders
        (if currentPath = "" then part else currentPath ++ "/" ++ part)).isSome = true := by
      rw [lookupKey_isSome_iff_hasKey]; exact hcp
    obtain ⟨id, hid⟩ := Option.isSome_iff_exists.mp hsome
    simp only [ensureFolderLoop, hid]
    exact ih _ id (fun cp hcp2 => h cp (Or.inr hcp2))

theorem ensureFolderLoop_create_find (env : GDriveEnv) (parts : List String)
    (currentPath parentId : String) (st : SyncState) (cp name par : String)
    (hc : (cp, RemoteOp.create name par) ∈ (ensureFolderLoop env parts currentPath parentId st).2.2) :
    (cp, RemoteOp.find name par) ∈ (ensureFolderLoop env parts currentPath parentId st).2.2 ∧
    env.findFolder name par = .ok none := by
  induction parts generalizing currentPath parentId st with
  | nil => simp [ensureFolderLoop] at hc
  | cons part rest ih =>
    simp only [ensureFolderLoop] at hc ⊢
    set cp' := if currentPath = "" then part else currentPath ++ "/" ++ part with hcp'
    cases hlk : lookupKey st.folders cp' with
    | some id =>
      simp only [hlk] at hc ⊢
      exact ih _ _ _ hc
    | none =>
      simp only [hlk] at hc ⊢
      cases hff : env.findFolder part parentId with
      | error e =>
        simp only [hff] at hc ⊢
        simp at hc
      | ok o =>
        cases o with
        | some existing =>
          simp only [hff] at hc ⊢
          rcases hres : ensureFolderLoop env rest cp' existing.id
            ⟨st.files, setKey st.folders cp' existing.id⟩ with ⟨r, st2, tr⟩
          simp only [hres] at hc ⊢
          simp only [List.mem_cons] at hc
          rcases hc with heq | hmem
          · simp only [Prod.mk.injEq] at heq
            exact absurd heq.2 (by simp)
          · have := ih _ _ _ (by rw [hres]; exact hmem)
            rw [hres] at this
            exact ⟨List.mem_cons_of_mem _ this.1, this.2⟩
        | none =>
          simp only [hff] at hc ⊢
          cases hcf : env.createFolder part parentId with
          | error e =>
            simp only [hcf] at hc ⊢
            simp only [List.mem_cons, List.mem_singleton, List.not_mem_nil, or_false] at hc
            rcases hc with heq | heq
            · simp only [Prod.mk.injEq] at heq
              exact absurd heq.2 (by simp)
            · simp only [Prod.mk.injEq, RemoteOp.create.injEq] at heq
              obtain ⟨h1, h2, h3⟩ := heq
              subst h1; subst h2; subst h3
              exact ⟨by simp, hff⟩
          | ok folder =>
            simp only [hcf] at hc ⊢
            rcases hres : ensureFolderLoop env rest cp' folder.id
              ⟨st.files, setKey st.folders cp' folder.id⟩ with ⟨r, st2, tr⟩
            simp only [hres] at hc ⊢
            simp only [List.mem_cons] at hc
            rcases hc with heq | heq | hmem
            · simp only [Prod.mk.injEq] at heq
              exact absurd heq.2 (by simp)
            · simp only [Prod.mk.injEq, RemoteOp.create.injEq] at heq
              obtain ⟨h1, h2, h3⟩ := heq
              subst h1; subst h2; subst h3
              exact ⟨by simp, hff⟩
            · have := ih _ _ _ (by rw [hres]; exact hmem)
              rw [hres] at this
              refine ⟨?_, this.2⟩
              simp only [List.mem_cons]
              exact Or.inr (Or.inr this.1)

/-- C4: the folder path resolver uses `folders`-cached prefixes without any
remote call (if every cumulative prefix is cached the remote trace is empty
and the state is untouched), and whenever it creates a folder it has first
queried `findFolder` for that same name and parent and got `none` back — so
with a pre-existing remote folder of the required name under a parent
(`findFolder` returns it) no `createFolder` call is made for that name and
parent, and no duplicate folder can be created. -/
theorem ensureFolderExists_cache_and_dedup (cfg : Config) (env : GDriveEnv)
    (st : SyncState) (rp : String) :
    ((∀ cp ∈ cumulPrefixes (splitOnChar '/' rp) "", hasKey st.folders cp = true) →
      (ensureFolderExists cfg env st rp).2.2 = [] ∧
      (ensureFolderExists cfg env st rp).2.1 = st) ∧
    (∀ cp name par, (cp, RemoteOp.create name par) ∈ (ensureFolderExists cfg env st rp).2.2 →
      (cp, RemoteOp.find name par) ∈ (ensureFolderExists cfg env st rp).2.2 ∧
      env.findFolder name par = .ok none) ∧
    (∀ cp name par f, env.findFolder name par = .ok (some f) →
      (cp, RemoteOp.create name par) ∉ (ensureFolderExists cfg env st rp).2.2) := by
  unfold ensureFolderExists
  refine ⟨fun h => ensureFolderLoop_cached env _ "" cfg.gdriveFolderId st h,
    fun cp name par hc => ensureFolderLoop_create_find env _ "" cfg.gdriveFolderId st cp name par hc,
    fun cp name par f hf hc => ?_⟩
  have := ensureFolderLoop_create_find env _ "" cfg.gdriveFolderId st cp name par hc
  rw [hf] at this
  exact absurd this.2 (by simp)

/-- Witness for C4 at concrete inputs: with both prefixes of `a/b` cached no
remote call is made, and with an empty state but a remote store whose
`findFolder` finds an existing folder, no `createFolder` call is made. -/
theorem ensureFolderExists_cache_and_dedup_witness :
    (ensureFolderExists ⟨"/r", "root"⟩ failEnv ⟨[], [("a", "ida"), ("a/b", "idb")]⟩ "a/b").2.2 = [] ∧
    ("a", RemoteOp.create "a" "root") ∉
      (ensureFolderExists ⟨"/r", "root"⟩ foundEnv ⟨[], []⟩ "a").2.2 :=
  ⟨((ensureFolderExists_cache_and_dedup ⟨"/r", "root"⟩ failEnv
      ⟨[], [("a", "ida"), ("a/b", "idb")]⟩ "a/b").1 (by decide)).1,
   (ensureFolderExists_cache_and_dedup ⟨"/r", "root"⟩ foundEnv ⟨[], []⟩ "a").2.2
     "a" "a" "root" ⟨"fid", "n", "application/vnd.google-apps.folder", 0⟩ rfl⟩

/-! ### C7: a thrown remote call aborts the rest of the push batch -/

/-- C7: if every entry of `pre` processes without error and processing `p`
throws (a failed `updateFile`, `uploadFile` or folder-resolution call), then
pushing `pre ++ p :: post` stops at `p`: the entries of `post` are never
processed (the result does not depend on `post`), `saveState` is skipped
(`saved = false`), and the state and remote-call trace are exactly those
accumulated through `pre` and the partial processing of `p` — earlier
mutations are neither rolled back nor retried. -/
theorem push_abort_on_error (cfg : Config) (env : GDriveEnv) (fsys : LocalFs)
    (pre post : List String) (p : String) (st st1 st2 : SyncState) (tr1 tr2 : Trace)
    (h1 : pushLoop cfg env fsys st pre = (true, st1, tr1))
    (h2 : pushOne cfg env fsys st1 p = (false, st2, tr2)) :
    push cfg env fsys st (pre ++ p :: post) = ⟨false, st2, tr1 ++ tr2, false⟩ := by
  suffices hs : pushLoop cfg env fsys st (pre ++ p :: post) = (false, st2, tr1 ++ tr2) by
    unfold push
    rw [hs]
  induction pre generalizing st tr1 with
  | nil =>
    obtain ⟨rfl, rfl⟩ : st = st1 ∧ ([] : Trace) = tr1 := by
      have h1' := h1
      simp only [pushLoop] at h1'
      exact ⟨congrArg (fun x => x.2.1) h1', congrArg (fun x => x.2.2) h1'⟩
    simp only [List.nil_append, pushLoop, h2]
    simp
  | cons q rest ih =>
    rw [List.cons_append]
    simp only [pushLoop] at h1 ⊢
    rcases hq : pushOne cfg env fsys st q with ⟨okq, stq, trq⟩
    rw [hq] at h1
    simp only at h1 ⊢
    cases okq with
    | false => simp at h1
    | true =>
      simp only [if_pos rfl] at h1 ⊢
      rcases hrest : pushLoop cfg env fsys stq rest with ⟨okr, str, trr⟩
      rw [hrest] at h1
      simp only at h1
      have hok : okr = true := congrArg (fun x => x.1) h1
      have hst : str = st1 := congrArg (fun x => x.2.1) h1
      have htr : trq ++ trr = tr1 := congrArg (fun x => x.2.2) h1
      subst hst htr
      have hrec := ih stq trr (hok ▸ hrest)
      rw [hrec]
      simp

/-- Witness for C7 at concrete inputs: deleting `gone.txt` succeeds (error
caught), updating `a.txt` throws, so `b.txt` is never processed, the save is
skipped, and the delete already performed stays in state and trace. -/
theorem push_abort_on_error_witness :
    push ⟨"/r", "root"⟩ failEnv
      [("/r/a.txt", ⟨false, 5, "ca"⟩), ("/r/b.txt", ⟨false, 5, "cb"⟩)]
      ⟨[("gone.txt", ⟨"gid", 1, 1⟩), ("a.txt", ⟨"aid", 1, 1⟩)], []⟩
      ["/r/gone.txt", "/r/a.txt", "/r/b.txt"] =
      ⟨false, ⟨[("a.txt", ⟨"aid", 1, 1⟩)], []⟩,
        [("gone.txt", .delete "gid"), ("a.txt", .update "aid" "ca")], false⟩ :=
  (push_abort_on_error ⟨"/r", "root"⟩ failEnv
    [("/r/a.txt", ⟨false, 5, "ca"⟩), ("/r/b.txt", ⟨false, 5, "cb"⟩)]
    ["/r/gone.txt"] ["/r/b.txt"] "/r/a.txt"
    ⟨[("gone.txt", ⟨"gid", 1, 1⟩), ("a.txt", ⟨"aid", 1, 1⟩)], []⟩
    ⟨[("a.txt", ⟨"aid", 1, 1⟩)], []⟩
    ⟨[("a.txt", ⟨"aid", 1, 1⟩)], []⟩
    [("gone.txt", .delete "gid")] [("a.txt", .update "aid" "ca")]
    (by decide) (by decide)).trans (by decide)

/-! ### C8: push round trip yields Skip -/

/-- C8: pushing a new local file records the server-reported `modifiedTime`
as the record's remote baseline, so a subsequent pull whose listing reports
the same `modifiedTime` for that file resolves it to `skip`: the decision
function returns `skip`, and the whole pull pass makes no remote call and
leaves the state unchanged. -/
theorem push_new_file_then_pull_skips (cfg : Config) (env env2 : GDriveEnv) (wm : String → Int)
    (fsys : LocalFs) (st : SyncState) (rp : String) (m : Int) (c : String)
    (created f : GDriveFile)
    (hfiles : st.files = [])
    (hfs : lookupKey fsys (pathJoin cfg.localPath rp) = some ⟨false, m, c⟩)
    (hexcl : isExcluded rp = false)
    (hdir : pathDirname rp = ".")
    (hup : env.uploadFile (pathBasename rp) c cfg.gdriveFolderId = .ok created)
    (hmt : f.modifiedTime = created.modifiedTime)
    (hmime : strStartsWith f.mimeType "application/vnd.google-apps." = false) :
    (push cfg env fsys st [pathJoin cfg.localPath rp]).ok = true ∧
    shouldDownloadFile (push cfg env fsys st [pathJoin cfg.localPath rp]).state fsys rp
      (pathJoin cfg.localPath rp) f.modifiedTime = .skip ∧
    (pull cfg env2 wm [(rp, f)] (push cfg env fsys st [pathJoin cfg.localPath rp]).state fsys).trace
      = [] ∧
    (pull cfg env2 wm [(rp, f)] (push cfg env fsys st [pathJoin cfg.localPath rp]).state fsys).state
      = (push cfg env fsys st [pathJoin cfg.localPath rp]).state := by
  obtain ⟨stf, stfol⟩ := st
  simp only at hfiles
  subst hfiles
  have hex : localExists fsys (pathJoin cfg.localPath rp) = true := by
    unfold localExists
    rw [hfs]
    rfl
  have hdirf : statIsDir fsys (pathJoin cfg.localPath rp) = false := by
    unfold statIsDir
    rw [hfs]
  have hone : pushOne cfg env fsys ⟨[], stfol⟩ (pathJoin cfg.localPath rp) =
      (true, ⟨[(rp, ⟨created.id, m, created.modifiedTime⟩)], stfol⟩,
        [(rp, .upload (pathBasename rp) c cfg.gdriveFolderId)]) := by
    unfold pushOne
    rw [getRelativePath_pathJoin]
    simp only [hexcl, hex, hdirf, hfs]
    simp [hdir, hup, statMtime, hfs, lookupKey, setKey]
  have hpush : push cfg env fsys ⟨[], stfol⟩ [pathJoin cfg.localPath rp] =
      ⟨true, ⟨[(rp, ⟨created.id, m, created.modifiedTime⟩)], stfol⟩,
        [(rp, .upload (pathBasename rp) c cfg.gdriveFolderId)], true⟩ := by
    unfold push pushLoop
    rw [hone]
    simp [pushLoop]
  rw [hpush]
  have hskip : shouldDownloadFile ⟨[(rp, ⟨created.id, m, created.modifiedTime⟩)], stfol⟩ fsys rp
      (pathJoin cfg.localPath rp) f.modifiedTime = .skip := by
    have hlk : lookupKey ([(rp, ⟨created.id, m, created.modifiedTime⟩)] : List (String × FileState)) rp
        = some ⟨created.id, m, created.modifiedTime⟩ := by
      simp [lookupKey]
    simp only [shouldDownloadFile, hlk]
    rw [if_pos (show f.modifiedTime ≤ created.modifiedTime from le_of_eq hmt)]
  have hnotfolder : f.mimeType ≠ "application/vnd.google-apps.folder" := by
    intro heq
    rw [heq] at hmime
    exact absurd hmime (by decide)
  refine ⟨rfl, hskip, ?_, ?_⟩ <;>
  · unfold pull
    simp only [updateFoldersFromListing, if_neg hnotfolder]
    simp only [pullMainLoop, hexcl, Bool.false_eq_true, if_false, hmime, hskip]
    simp only [pullStaleLoop, List.map, hasKey]
    simp

/-- Witness for C8 at concrete inputs: push `a.txt` (server reports
modified time 2), then the decision for an unchanged remote (mtime 2) is
`skip`. -/
theorem push_new_file_then_pull_skips_witness :
    shouldDownloadFile (push ⟨"/r", "root"⟩ okEnv [("/r/a.txt", ⟨false, 1, "ca"⟩)] ⟨[], []⟩
        [pathJoin "/r" "a.txt"]).state [("/r/a.txt", ⟨false, 1, "ca"⟩)] "a.txt"
      (pathJoin "/r" "a.txt") 2 = .skip :=
  (push_new_file_then_pull_skips ⟨"/r", "root"⟩ okEnv okEnv (fun _ => 0)
    [("/r/a.txt", ⟨false, 1, "ca"⟩)] ⟨[], []⟩ "a.txt" 1 "ca"
    ⟨"fid", "n", "text/plain", 2⟩ ⟨"fid", "a.txt", "text/plain", 2⟩
    rfl (by decide) (by decide) (by decide) rfl rfl (by decide)).2.1

/-! ### Pull/push structural lemmas -/

theorem updateFolders_files (l : List (String × GDriveFile)) (st : SyncState) :
    (updateFoldersFromListing l st).files = st.files := by
  induction l generalizing st with
  | nil => rfl
  | cons p rest ih =>
    obtain ⟨rp, f⟩ := p
    simp only [updateFoldersFromListing]
    split
    · exact ih _
    · exact ih _

theorem ensureFolderLoop_files (env : GDriveEnv) (parts : List String)
    (currentPath parentId : String) (st : SyncState) :
    (ensureFolderLoop env parts currentPath parentId st).2.1.files = st.files := by
  induction parts generalizing currentPath parentId st with
  | nil => rfl
  | cons part rest ih =>
    simp only [ensureFolderLoop]
    set cp' := if currentPath = "" then part else currentPath ++ "/" ++ part
    cases hlk : lookupKey st.folders cp' with
    | some id => exact ih _ _ _
    | none =>
      cases hff : env.findFolder part parentId with
      | error e => rfl
      | ok o =>
        cases o with
        | some existing =>
          rcases hres : ensureFolderLoop env rest cp' existing.id
            ⟨st.files, setKey st.folders cp' existing.id⟩ with ⟨r, st2, tr⟩
          have := ih cp' existing.id ⟨st.files, setKey st.folders cp' existing.id⟩
          rw [hres] at this
          simpa [hres] using this
        | none =>
          cases hcf : env.createFolder part parentId with
          | error e => rfl
          | ok folder =>
            rcases hres : ensureFolderLoop env rest cp' folder.id
              ⟨st.files, setKey st.folders cp' folder.id⟩ with ⟨r, st2, tr⟩
            have := ih cp' folder.id ⟨st.files, setKey st.folders cp' folder.id⟩
            rw [hres] at this
            simpa [hres] using this

theorem ensureFolderLoop_ops_not_transfer (env : GDriveEnv) (parts : List String)
    (currentPath parentId : String) (st : SyncState) :
    ∀ x ∈ (ensureFolderLoop env parts currentPath parentId st).2.2,
      isTransferOp x.2 = false := by
  induction parts generalizing currentPath parentId st with
  | nil => intro x hx; simp [ensureFolderLoop] at hx
  | cons part rest ih =>
    intro x hx
    simp only [ensureFolderLoop] at hx
    set cp' := if currentPath = "" then part else currentPath ++ "/" ++ part
    revert hx
    cases hlk : lookupKey st.folders cp' with
    | some id => exact fun hx => ih _ _ _ x hx
    | none =>
      cases hff : env.findFolder part parentId with
      | error e =>
        intro hx
        simp only [List.mem_singleton] at hx
        subst hx
        rfl
      | ok o =>
        cases o with
        | some existing =>
          rcases hres : ensureFolderLoop env rest cp' existing.id
            ⟨st.files, setKey st.folders cp' existing.id⟩ with ⟨r, st2, tr⟩
          intro hx
          simp only [hres, List.mem_cons] at hx
          rcases hx with rfl | hx
          · rfl
          · have := ih cp' existing.id ⟨st.files, setKey st.folders cp' existing.id⟩ x
            rw [hres] at this
            exact this hx
        | none =>
          cases hcf : env.createFolder part parentId with
          | error e =>
            intro hx
            simp only [List.mem_cons, List.mem_singleton, List.not_mem_nil, or_false] at hx
            rcases hx with rfl | rfl <;> rfl
          | ok folder =>
            rcases hres : ensureFolderLoop env rest cp' folder.id
              ⟨st.files, setKey st.folders cp' folder.id⟩ with ⟨r, st2, tr⟩
            intro hx
            simp only [hres, List.mem_cons] at hx
            rcases hx with rfl | rfl | hx
            · rfl
            · rfl
            · have := ih cp' folder.id ⟨st.files, setKey st.folders cp' folder.id⟩ x
              rw [hres] at this
              exact this hx

theorem lookupKey_mem_keys {α : Type} (m : List (String × α)) (k : String) (v : α)
    (h : lookupKey m k = some v) : k ∈ m.map Prod.fst := by
  induction m with
  | nil => simp [lookupKey] at h
  | cons p rest ih =>
    obtain ⟨k', v'⟩ := p
    simp only [lookupKey] at h
    by_cases hk : k' = k
    · simp [hk]
    · rw [if_neg hk] at h
      simp [ih h]

theorem hasKey_cons_of {α : Type} (p : String × α) (rest : List (String × α)) (k : String)
    (h : hasKey rest k = true) : hasKey (p :: rest) k = true := by
  obtain ⟨k', v⟩ := p
  simp only [hasKey]
  split <;> simp [h]

theorem pullMainLoop_files_not_listed (cfg : Config) (env : GDriveEnv) (wm : String → Int)
    (l : List (String × GDriveFile)) (st : SyncState) (fsys : LocalFs) (rp : String)
    (hnl : hasKey l rp = false) :
    lookupKey (pullMainLoop cfg env wm l st fsys).2.1.files rp = lookupKey st.files rp := by
  induction l generalizing st fsys with
  | nil => rfl
  | cons p rest ih =>
    obtain ⟨rp', f⟩ := p
    have hne : rp' ≠ rp := by
      intro hh
      simp only [hasKey, if_pos hh] at hnl
      exact Bool.true_eq_false.mp hnl
    have hrest : hasKey rest rp = false := by
      simp only [hasKey, if_neg hne] at hnl
      exact hnl
    simp only [pullMainLoop]
    by_cases hexcl : isExcluded rp'
    · rw [if_pos hexcl]
      exact ih _ _ hrest
    · rw [if_neg hexcl]
      by_cases hmime : strStartsWith f.mimeType "application/vnd.google-apps." = true
      · rw [if_pos hmime]
        exact ih _ _ hrest
      · rw [if_neg hmime]
        cases hact : shouldDownloadFile st fsys rp' (pathJoin cfg.localPath rp') f.modifiedTime with
        | download =>
          cases hdl : env.downloadFile f.id with
          | error e => simp [lookupKey]
          | ok content =>
            simp only []
            rw [ih _ _ hrest]
            simp only []
            exact lookupKey_setKey_ne _ _ _ _ (Ne.symm hne)
        | localNewer =>
          simp only []
          rw [ih _ _ hrest]
          simp only []
          exact lookupKey_setKey_ne _ _ _ _ (Ne.symm hne)
        | skip => exact ih _ _ hrest

/-! ### Pull main loop lemmas -/

theorem pullMainLoop_fsys_not_listed (cfg : Config) (env : GDriveEnv) (wm : String → Int)
    (l : List (String × GDriveFile)) (st : SyncState) (fsys : LocalFs) (rp : String)
    (hnl : hasKey l rp = false) :
    lookupKey (pullMainLoop cfg env wm l st fsys).2.2.1 (pathJoin cfg.localPath rp)
      = lookupKey fsys (pathJoin cfg.localPath rp) := by
  induction l generalizing st fsys with
  | nil => rfl
  | cons p rest ih =>
    obtain ⟨rp', f⟩ := p
    have hne : rp' ≠ rp := by
      intro hh
      simp only [hasKey, if_pos hh] at hnl
      exact Bool.true_eq_false.mp hnl
    have hrest : hasKey rest rp = false := by
      simp only [hasKey, if_neg hne] at hnl
      exact hnl
    have hpne : pathJoin cfg.localPath rp ≠ pathJoin cfg.localPath rp' := by
      intro hh
      exact hne (pathJoin_right_inj _ _ _ hh.symm)
    simp only [pullMainLoop]
    by_cases hexcl : isExcluded rp'
    · rw [if_pos hexcl]
      exact ih _ _ hrest
    · rw [if_neg hexcl]
      by_cases hmime : strStartsWith f.mimeType "application/vnd.google-apps." = true
      · rw [if_pos hmime]
        exact ih _ _ hrest
      · rw [if_neg hmime]
        cases hact : shouldDownloadFile st fsys rp' (pathJoin cfg.localPath rp') f.modifiedTime with
        | download =>
          cases hdl : env.downloadFile f.id with
          | error e => rfl
          | ok content =>
            simp only []
            rw [ih _ _ hrest]
            exact lookupKey_setKey_ne _ _ _ _ hpne
        | localNewer =>
          simp only []
          exact ih _ _ hrest
        | skip => exact ih _ _ hrest

theorem pullMainLoop_trace_listed (cfg : Config) (env : GDriveEnv) (wm : String → Int)
    (l : List (String × GDriveFile)) (st : SyncState) (fsys : LocalFs) :
    ∀ rpo op, (rpo, op) ∈ (pullMainLoop cfg env wm l st fsys).2.2.2.1 →
      hasKey l rpo = true ∧ isExcluded rpo = false ∧ ∃ id, op = RemoteOp.download id := by
  induction l generalizing st fsys with
  | nil => intro rpo op h; simp [pullMainLoop] at h
  | cons p rest ih =>
    obtain ⟨rp', f⟩ := p
    intro rpo op h
    simp only [pullMainLoop] at h
    by_cases hexcl : isExcluded rp'
    · rw [if_pos hexcl] at h
      have := ih _ _ rpo op h
      exact ⟨hasKey_cons_of _ _ _ this.1, this.2⟩
    · rw [if_neg hexcl] at h
      by_cases hmime : strStartsWith f.mimeType "application/vnd.google-apps." = true
      · rw [if_pos hmime] at h
        have := ih _ _ rpo op h
        exact ⟨hasKey_cons_of _ _ _ this.1, this.2⟩
      · rw [if_neg hmime] at h
        revert h
        cases hact : shouldDownloadFile st fsys rp' (pathJoin cfg.localPath rp') f.modifiedTime with
        | download =>
          cases hdl : env.downloadFile f.id with
          | error e =>
            intro h
            simp only [List.mem_singleton, Prod.mk.injEq] at h
            obtain ⟨rfl, rfl⟩ := h
            exact ⟨by simp [hasKey], Bool.not_eq_true _ ▸ (eq_false_of_ne_true hexcl), f.id, rfl⟩
          | ok content =>
            intro h
            simp only [List.mem_cons, Prod.mk.injEq] at h
            rcases h with ⟨rfl, rfl⟩ | h
            · exact ⟨by simp [hasKey], Bool.not_eq_true _ ▸ (eq_false_of_ne_true hexcl), f.id, rfl⟩
            · have := ih _ _ rpo op h
              exact ⟨hasKey_cons_of _ _ _ this.1, this.2⟩
        | localNewer =>
          intro h
          simp only [] at h
          have := ih _ _ rpo op h
          exact ⟨hasKey_cons_of _ _ _ this.1, this.2⟩
        | skip =>
          intro h
          have := ih _ _ rpo op h
          exact ⟨hasKey_cons_of _ _ _ this.1, this.2⟩

theorem pullMainLoop_no_unlink (cfg : Config) (env : GDriveEnv) (wm : String → Int)
    (l : List (String × GDriveFile)) (st : SyncState) (fsys : LocalFs) :
    ∀ p, FsOp.unlink p ∉ (pullMainLoop cfg env wm l st fsys).2.2.2.2.1 := by
  induction l generalizing st fsys with
  | nil => intro p h; simp [pullMainLoop] at h
  | cons q rest ih =>
    obtain ⟨rp', f⟩ := q
    intro p h
    simp only [pullMainLoop] at h
    by_cases hexcl : isExcluded rp'
    · rw [if_pos hexcl] at h
      exact ih _ _ p h
    · rw [if_neg hexcl] at h
      by_cases hmime : strStartsWith f.mimeType "application/vnd.google-apps." = true
      · rw [if_pos hmime] at h
        exact ih _ _ p h
      · rw [if_neg hmime] at h
        revert h
        cases hact : shouldDownloadFile st fsys rp' (pathJoin cfg.localPath rp') f.modifiedTime with
        | download =>
          cases hdl : env.downloadFile f.id with
          | error e =>
            intro h
            simp at h
          | ok content =>
            intro h
            simp only [List.mem_cons] at h
            rcases h with heq | heq | h
            · exact FsOp.noConfusion heq
            · exact FsOp.noConfusion heq
            · exact ih _ _ p h
        | localNewer =>
          intro h
          simp only [] at h
          exact ih _ _ p h
        | skip =>
          intro h
          exact ih _ _ p h

theorem pullStaleLoop_preserves_none (cfg : Config) (rf : List (String × GDriveFile))
    (keys : List String) (st : SyncState) (fsys : LocalFs) (rp : String)
    (h : lookupKey st.files rp = none) :
    lookupKey (pullStaleLoop cfg rf keys st fsys).1.files rp = none := by
  induction keys generalizing st with
  | nil => exact h
  | cons k rest ih =>
    simp only [pullStaleLoop]
    by_cases hk : hasKey rf k = true
    · rw [if_pos hk]
      exact ih _ h
    · rw [if_neg hk]
      have herase : lookupKey (eraseKey st.files k) rp = none := by
        by_cases hkr : rp = k
        · subst hkr
          exact lookupKey_eraseKey_self _ _
        · rw [lookupKey_eraseKey_ne _ _ _ hkr]
          exact h
      by_cases hex : localExists fsys (pathJoin cfg.localPath k) = true
      · rw [if_pos hex]
        simp only []
        exact ih _ herase
      · rw [if_neg hex]
        exact ih _ herase

theorem pullStaleLoop_drops (cfg : Config) (rf : List (String × GDriveFile))
    (keys : List String) (st : SyncState) (fsys : LocalFs) (rp : String)
    (hk : rp ∈ keys) (hnl : hasKey rf rp = false) :
    lookupKey (pullStaleLoop cfg rf keys st fsys).1.files rp = none ∧
    (localExists fsys (pathJoin cfg.localPath rp) = true →
      pathJoin cfg.localPath rp ∈ (pullStaleLoop cfg rf keys st fsys).2) := by
  induction keys generalizing st with
  | nil => simp at hk
  | cons k rest ih =>
    simp only [pullStaleLoop]
    by_cases hkr : k = rp
    · subst hkr
      rw [if_neg (by rw [hnl]; exact Bool.false_ne_true)]
      have herase : lookupKey (eraseKey st.files k) k = none := lookupKey_eraseKey_self _ _
      by_cases hex : localExists fsys (pathJoin cfg.localPath k) = true
      · rw [if_pos hex]
        exact ⟨pullStaleLoop_preserves_none cfg rf rest _ fsys k herase,
          fun _ => List.mem_cons_self _ _⟩
      · rw [if_neg hex]
        exact ⟨pullStaleLoop_preserves_none cfg rf rest _ fsys k herase,
          fun hc => absurd hc hex⟩
    · have hkrest : rp ∈ rest := by
        rcases List.mem_cons.mp hk with rfl | hr
        · exact absurd rfl hkr
        · exact hr
      by_cases hhk : hasKey rf k = true
      · rw [if_pos hhk]
        exact ih _ hkrest
      · rw [if_neg hhk]
        by_cases hex : localExists fsys (pathJoin cfg.localPath k) = true
        · rw [if_pos hex]
          simp only []
          have := ih ⟨eraseKey st.files k, st.folders⟩ hkrest
          exact ⟨this.1, fun hc => List.mem_cons_of_mem _ (this.2 hc)⟩
        · rw [if_neg hex]
          exact ih _ hkrest

/-! ### C3: records stale against the remote listing -/

/-- C3: when a tracked path is absent from the remote listing taken at the
start of a completed pull pass, pull drops the record; if the local file
still exists, its path is in the returned needs-push batch; the pass never
unlinks any local file; and no remote call at all is made for that path
(every remote call of a pull pass is a download for a path present in the
listing). -/
theorem pull_stale_record (cfg : Config) (env : GDriveEnv) (wm : String → Int)
    (remoteFiles : List (String × GDriveFile)) (st0 : SyncState) (fsys : LocalFs)
    (rp : String) (ex : FileState)
    (htracked : lookupKey st0.files rp = some ex)
    (hnl : hasKey remoteFiles rp = false)
    (hok : (pull cfg env wm remoteFiles st0 fsys).ok = true) :
    lookupKey (pull cfg env wm remoteFiles st0 fsys).state.files rp = none ∧
    (localExists fsys (pathJoin cfg.localPath rp) = true →
      pathJoin cfg.localPath rp ∈ (pull cfg env wm remoteFiles st0 fsys).filesToPush) ∧
    (∀ p, FsOp.unlink p ∉ (pull cfg env wm remoteFiles st0 fsys).fsTrace) ∧
    (∀ op, (rp, op) ∉ (pull cfg env wm remoteFiles st0 fsys).trace) := by
  unfold pull at hok ⊢
  simp only at hok ⊢
  by_cases hrok : (pullMainLoop cfg env wm remoteFiles
      (updateFoldersFromListing remoteFiles st0) fsys).1 = true
  swap
  · rw [if_neg hrok] at hok
    exact absurd hok Bool.false_ne_true
  rw [if_pos hrok] at hok ⊢
  simp only []
  have hfiles2 : lookupKey (pullMainLoop cfg env wm remoteFiles
      (updateFoldersFromListing remoteFiles st0) fsys).2.1.files rp = some ex := by
    rw [pullMainLoop_files_not_listed cfg env wm remoteFiles _ fsys rp hnl,
      updateFolders_files]
    exact htracked
  have hkeys : rp ∈ (pullMainLoop cfg env wm remoteFiles
      (updateFoldersFromListing remoteFiles st0) fsys).2.1.files.map Prod.fst :=
    lookupKey_mem_keys _ _ _ hfiles2
  have hfseq : lookupKey (pullMainLoop cfg env wm remoteFiles
      (updateFoldersFromListing remoteFiles st0) fsys).2.2.1 (pathJoin cfg.localPath rp)
      = lookupKey fsys (pathJoin cfg.localPath rp) :=
    pullMainLoop_fsys_not_listed cfg env wm remoteFiles _ fsys rp hnl
  have hdrop := pullStaleLoop_drops cfg remoteFiles
    ((pullMainLoop cfg env wm remoteFiles
      (updateFoldersFromListing remoteFiles st0) fsys).2.1.files.map Prod.fst)
    (pullMainLoop cfg env wm remoteFiles (updateFoldersFromListing remoteFiles st0) fsys).2.1
    (pullMainLoop cfg env wm remoteFiles (updateFoldersFromListing remoteFiles st0) fsys).2.2.1
    rp hkeys hnl
  refine ⟨hdrop.1, ?_, ?_, ?_⟩
  · intro hex
    apply List.mem_append_right
    apply hdrop.2
    unfold localExists at hex ⊢
    rw [hfseq]
    exact hex
  · intro p hp
    exact pullMainLoop_no_unlink cfg env wm remoteFiles _ fsys p hp
  · intro op hop
    have := pullMainLoop_trace_listed cfg env wm remoteFiles _ fsys rp op hop
    rw [hnl] at this
    exact Bool.false_ne_true this.1

/-- Witness for C3 at concrete inputs: `gone.txt` is tracked, missing from
an empty remote listing, and still present locally — the record is dropped
and the path returned for pushing. -/
theorem pull_stale_record_witness :
    lookupKey (pull ⟨"/r", "root"⟩ failEnv (fun _ => 0) [] ⟨[("gone.txt", ⟨"gid", 1, 1⟩)], []⟩
      [("/r/gone.txt", ⟨false, 2, "c"⟩)]).state.files "gone.txt" = none ∧
    pathJoin "/r" "gone.txt" ∈ (pull ⟨"/r", "root"⟩ failEnv (fun _ => 0) []
      ⟨[("gone.txt", ⟨"gid", 1, 1⟩)], []⟩ [("/r/gone.txt", ⟨false, 2, "c"⟩)]).filesToPush := by
  have h := pull_stale_record ⟨"/r", "root"⟩ failEnv (fun _ => 0) []
    ⟨[("gone.txt", ⟨"gid", 1, 1⟩)], []⟩ [("/r/gone.txt", ⟨false, 2, "c"⟩)] "gone.txt"
    ⟨"gid", 1, 1⟩ (by decide) rfl (by decide)
  exact ⟨h.1, h.2.1 (by decide)⟩

/-! ### C9: LocalWins performs no remote write and re-targets the record -/

/-- C9: when the pass resolves a listed file to `localNewer` (LocalWins),
that iteration adds no remote call and no filesystem operation: it only
replaces the record with the currently observed remote id and mtimes
(current local stat mtime, current remote mtime) and adds the local path to
the needs-push batch. A subsequent push of that path then finds the record
and issues exactly one `updateFile` on the observed remote id — never an
`uploadFile` that would create a duplicate. -/
theorem pull_localwins_no_overwrite (cfg : Config) (env : GDriveEnv) (wm : String → Int)
    (rp : String) (f : GDriveFile) (rest : List (String × GDriveFile))
    (st : SyncState) (fsys : LocalFs)
    (hexcl : isExcluded rp = false)
    (hmime : strStartsWith f.mimeType "application/vnd.google-apps." = false)
    (hact : shouldDownloadFile st fsys rp (pathJoin cfg.localPath rp) f.modifiedTime
      = .localNewer) :
    (pullMainLoop cfg env wm ((rp, f) :: rest) st fsys =
      (let r := pullMainLoop cfg env wm rest
          ⟨setKey st.files rp
            ⟨f.id, statMtime fsys (pathJoin cfg.localPath rp), f.modifiedTime⟩,
            st.folders⟩ fsys
       (r.1, r.2.1, r.2.2.1, r.2.2.2.1, r.2.2.2.2.1,
         pathJoin cfg.localPath rp :: r.2.2.2.2.2))) ∧
    lookupKey (setKey st.files rp
        ⟨f.id, statMtime fsys (pathJoin cfg.localPath rp), f.modifiedTime⟩) rp
      = some ⟨f.id, statMtime fsys (pathJoin cfg.localPath rp), f.modifiedTime⟩ ∧
    (∀ (env2 : GDriveEnv) (lm : Int) (lc : String),
      lookupKey fsys (pathJoin cfg.localPath rp) = some ⟨false, lm, lc⟩ →
      (pushOne cfg env2 fsys
        ⟨setKey st.files rp
          ⟨f.id, statMtime fsys (pathJoin cfg.localPath rp), f.modifiedTime⟩,
          st.folders⟩
        (pathJoin cfg.localPath rp)).2.2 = [(rp, RemoteOp.update f.id lc)]) := by
  refine ⟨?_, lookupKey_setKey_self _ _ _, ?_⟩
  · simp only [pullMainLoop, hexcl, Bool.false_eq_true, if_false, hmime, hact]
  · intro env2 lm lc hfsf
    have hex : localExists fsys (pathJoin cfg.localPath rp) = true := by
      unfold localExists
      rw [hfsf]
      rfl
    have hdirf : statIsDir fsys (pathJoin cfg.localPath rp) = false := by
      unfold statIsDir
      rw [hfsf]
    unfold pushOne
    rw [getRelativePath_pathJoin]
    simp only [hexcl, hex, hdirf, hfsf, Bool.false_eq_true, if_false, not_true,
      lookupKey_setKey_self]
    cases hu : env2.updateFile f.id lc with
    | error e => simp [hu]
    | ok updated => simp [hu]

/-- Witness for C9 at concrete inputs: after a LocalWins resolution updated
the record to the observed remote id `newid`, pushing the path issues
exactly one `updateFile` on `newid`. -/
theorem pull_localwins_no_overwrite_witness :
    (pushOne ⟨"/r", "root"⟩ failEnv [("/r/a.txt", ⟨false, 5, "ca"⟩)]
      ⟨setKey [("a.txt", ⟨"old", 0, 0⟩)] "a.txt"
        ⟨"newid", statMtime [("/r/a.txt", ⟨false, 5, "ca"⟩)] (pathJoin "/r" "a.txt"), 3⟩, []⟩
      (pathJoin "/r" "a.txt")).2.2 = [("a.txt", RemoteOp.update "newid" "ca")] := by
  have h := pull_localwins_no_overwrite ⟨"/r", "root"⟩ failEnv (fun _ => 0) "a.txt"
    ⟨"newid", "a.txt", "text/plain", 3⟩ [] ⟨[("a.txt", ⟨"old", 0, 0⟩)], []⟩
    [("/r/a.txt", ⟨false, 5, "ca"⟩)] (by decide) (by decide) (by decide)
  exact h.2.2 failEnv 5 "ca" (by decide)

/-! ### C5: excluded names and the state maps -/

theorem noExcl_of_files_eq (st st' : SyncState) (hf : st'.files = st.files)
    (h : noExcludedFileKeys st) : noExcludedFileKeys st' := by
  intro k hk
  rw [hf]
  exact h k hk

theorem noExcl_setKey (st : SyncState) (rp : String) (v : FileState)
    (folders : List (String × String))
    (hexcl : isExcluded rp = false) (h : noExcludedFileKeys st) :
    noExcludedFileKeys ⟨setKey st.files rp v, folders⟩ := by
  intro k hk
  have hne : k ≠ rp := by
    intro hh
    subst hh
    rw [hk] at hexcl
    exact Bool.true_eq_false.mp hexcl
  simp only []
  rw [lookupKey_setKey_ne _ _ _ _ hne]
  exact h k hk

theorem noExcl_eraseKey (st : SyncState) (rp : String)
    (folders : List (String × String)) (h : noExcludedFileKeys st) :
    noExcludedFileKeys ⟨eraseKey st.files rp, folders⟩ := by
  intro k hk
  by_cases hkr : k = rp
  · subst hkr
    exact lookupKey_eraseKey_self _ _
  · simp only []
    rw [lookupKey_eraseKey_ne _ _ _ hkr]
    exact h k hk

theorem pushOne_no_excluded (cfg : Config) (env : GDriveEnv) (fsys : LocalFs)
    (st : SyncState) (p : String) (h : noExcludedFileKeys st) :
    noExcludedFileKeys (pushOne cfg env fsys st p).2.1 ∧
    (∀ rpo op, (rpo, op) ∈ (pushOne cfg env fsys st p).2.2 → isTransferOp op = true →
      isExcluded rpo = false) := by
  unfold pushOne
  simp only []
  by_cases hexcl : isExcluded (getRelativePath cfg.localPath p) = true
  · rw [if_pos hexcl]
    exact ⟨h, fun rpo op hop _ => absurd hop (by simp)⟩
  · have hexcl' : isExcluded (getRelativePath cfg.localPath p) = false :=
      eq_false_of_ne_true hexcl
    rw [if_neg hexcl]
    by_cases hex : localExists fsys p = true
    case neg =>
      rw [if_pos (by simpa using hex)]
      unfold handleLocalDelete
      cases hlk : lookupKey st.files (getRelativePath cfg.localPath p) with
      | none => exact ⟨h, fun rpo op hop _ => absurd hop (by simp)⟩
      | some ex =>
        simp only []
        refine ⟨noExcl_eraseKey st _ _ h, ?_⟩
        intro rpo op hop htr
        simp only [List.mem_singleton, Prod.mk.injEq] at hop
        obtain ⟨rfl, rfl⟩ := hop
        exact hexcl'
    case pos =>
      rw [if_neg (by simpa using hex)]
      by_cases hdir : statIsDir fsys p = true
      · rw [if_pos hdir]
        exact ⟨h, fun rpo op hop _ => absurd hop (by simp)⟩
      · rw [if_neg hdir]
        split
        · -- tracked: update branch
          split
          · -- updateFile threw
            refine ⟨h, ?_⟩
            intro rpo op hop htr
            simp only [List.mem_singleton, Prod.mk.injEq] at hop
            obtain ⟨rfl, rfl⟩ := hop
            exact hexcl'
          · -- updateFile ok
            refine ⟨noExcl_setKey st _ _ _ hexcl' h, ?_⟩
            intro rpo op hop htr
            simp only [List.mem_singleton, Prod.mk.injEq] at hop
            obtain ⟨rfl, rfl⟩ := hop
            exact hexcl'
        · -- untracked: upload branch
          split
          next a st1 tr1 heq =>
            -- folder resolution threw
            have hfiles : st1.files = st.files := by
              by_cases hd : pathDirname (getRelativePath cfg.localPath p) = "."
              · rw [if_pos hd] at heq
                exact (congrArg (fun x => x.2.1.files) heq).symm
              · rw [if_neg hd] at heq
                have := congrArg (fun x => x.2.1) heq
                simp only [] at this
                rw [← this]
                unfold ensureFolderExists
                exact ensureFolderLoop_files env _ "" cfg.gdriveFolderId st
            have htrf : ∀ x ∈ tr1, isTransferOp x.2 = false := by
              by_cases hd : pathDirname (getRelativePath cfg.localPath p) = "."
              · rw [if_pos hd] at heq
                have := congrArg (fun x => x.2.2) heq
                simp only [] at this
                rw [← this]
                intro x hx
                simp at hx
              · rw [if_neg hd] at heq
                have := congrArg (fun x => x.2.2) heq
                simp only [] at this
                rw [← this]
                unfold ensureFolderExists
                exact ensureFolderLoop_ops_not_transfer env _ "" cfg.gdriveFolderId st
            refine ⟨noExcl_of_files_eq st _ hfiles h, ?_⟩
            intro rpo op hop htr
            have := htrf (rpo, op) hop
            simp only [] at this
            rw [htr] at this
            exact absurd this (by decide : ¬ (true = false))
          next parentId st1 tr1 heq =>
            have hfiles : st1.files = st.files := by
              by_cases hd : pathDirname (getRelativePath cfg.localPath p) = "."
              · rw [if_pos hd] at heq
                exact (congrArg (fun x => x.2.1.files) heq).symm
              · rw [if_neg hd] at heq
                have := congrArg (fun x => x.2.1) heq
                simp only [] at this
                rw [← this]
                unfold ensureFolderExists
                exact ensureFolderLoop_files env _ "" cfg.gdriveFolderId st
            have htrf : ∀ x ∈ tr1, isTransferOp x.2 = false := by
              by_cases hd : pathDirname (getRelativePath cfg.localPath p) = "."
              · rw [if_pos hd] at heq
                have := congrArg (fun x => x.2.2) heq
                simp only [] at this
                rw [← this]
                intro x hx
                simp at hx
              · rw [if_neg hd] at heq
                have := congrArg (fun x => x.2.2) heq
                simp only [] at this
                rw [← this]
                unfold ensureFolderExists
                exact ensureFolderLoop_ops_not_transfer env _ "" cfg.gdriveFolderId st
            split
            · -- uploadFile threw
              refine ⟨noExcl_of_files_eq st _ hfiles h, ?_⟩
              intro rpo op hop htr
              rcases List.mem_append.mp hop with hop1 | hop2
              · have := htrf (rpo, op) hop1
                simp only [] at this
                rw [htr] at this
                exact absurd this (by decide : ¬ (true = false))
              · simp only [List.mem_singleton, Prod.mk.injEq] at hop2
                obtain ⟨rfl, rfl⟩ := hop2
                exact hexcl'
            · -- uploadFile ok
              refine ⟨?_, ?_⟩
              · have : noExcludedFileKeys st1 := noExcl_of_files_eq st st1 hfiles h
                exact noExcl_setKey st1 _ _ _ hexcl' this
              · intro rpo op hop htr
                rcases List.mem_append.mp hop with hop1 | hop2
                · have := htrf (rpo, op) hop1
                  simp only [] at this
                  rw [htr] at this
                  exact absurd this (by decide : ¬ (true = false))
                · simp only [List.mem_singleton, Prod.mk.injEq] at hop2
                  obtain ⟨rfl, rfl⟩ := hop2
                  exact hexcl'

theorem pushLoop_no_excluded (cfg : Config) (env : GDriveEnv) (fsys : LocalFs)
    (paths : List String) (st : SyncState) (h : noExcludedFileKeys st) :
    noExcludedFileKeys (pushLoop cfg env fsys st paths).2.1 ∧
    (∀ rpo op, (rpo, op) ∈ (pushLoop cfg env fsys st paths).2.2 → isTransferOp op = true →
      isExcluded rpo = false) := by
  induction paths generalizing st with
  | nil => exact ⟨h, fun rpo op hop _ => absurd hop (by simp [pushLoop])⟩
  | cons p rest ih =>
    simp only [pushLoop]
    have h1 := pushOne_no_excluded cfg env fsys st p h
    by_cases hok : (pushOne cfg env fsys st p).1 = true
    · rw [if_pos hok]
      have h2 := ih (pushOne cfg env fsys st p).2.1 h1.1
      refine ⟨h2.1, ?_⟩
      intro rpo op hop htr
      rcases List.mem_append.mp hop with h3 | h3
      · exact h1.2 rpo op h3 htr
      · exact h2.2 rpo op h3 htr
    · rw [if_neg hok]
      exact h1

theorem push_no_excluded (cfg : Config) (env : GDriveEnv) (fsys : LocalFs)
    (st : SyncState) (paths : List String) (h : noExcludedFileKeys st) :
    noExcludedFileKeys (push cfg env fsys st paths).state ∧
    (∀ rpo op, (rpo, op) ∈ (push cfg env fsys st paths).trace → isTransferOp op = true →
      isExcluded rpo = false) := by
  unfold push
  exact pushLoop_no_excluded cfg env fsys paths st h

theorem pullMainLoop_no_excluded (cfg : Config) (env : GDriveEnv) (wm : String → Int)
    (l : List (String × GDriveFile)) (st : SyncState) (fsys : LocalFs)
    (h : noExcludedFileKeys st) :
    noExcludedFileKeys (pullMainLoop cfg env wm l st fsys).2.1 := by
  induction l generalizing st fsys with
  | nil => exact h
  | cons p rest ih =>
    obtain ⟨rp', f⟩ := p
    simp only [pullMainLoop]
    by_cases hexcl : isExcluded rp' = true
    · rw [if_pos hexcl]
      exact ih _ _ h
    · rw [if_neg hexcl]
      by_cases hmime : strStartsWith f.mimeType "application/vnd.google-apps." = true
      · rw [if_pos hmime]
        exact ih _ _ h
      · rw [if_neg hmime]
        cases hact : shouldDownloadFile st fsys rp' (pathJoin cfg.localPath rp') f.modifiedTime with
        | download =>
          cases hdl : env.downloadFile f.id with
          | error e => exact h
          | ok content =>
            simp only []
            exact ih _ _ (noExcl_setKey st _ _ _ (eq_false_of_ne_true hexcl) h)
        | localNewer =>
          simp only []
          exact ih _ _ (noExcl_setKey st _ _ _ (eq_false_of_ne_true hexcl) h)
        | skip => exact ih _ _ h

theorem pullStaleLoop_no_excluded (cfg : Config) (rf : List (String × GDriveFile))
    (keys : List String) (st : SyncState) (fsys : LocalFs) (h : noExcludedFileKeys st) :
    noExcludedFileKeys (pullStaleLoop cfg rf keys st fsys).1 := by
  induction keys generalizing st with
  | nil => exact h
  | cons k rest ih =>
    simp only [pullStaleLoop]
    by_cases hk : hasKey rf k = true
    · rw [if_pos hk]
      exact ih _ h
    · rw [if_neg hk]
      by_cases hex : localExists fsys (pathJoin cfg.localPath k) = true
      · rw [if_pos hex]
        simp only []
        exact ih _ (noExcl_eraseKey st _ _ h)
      · rw [if_neg hex]
        exact ih _ (noExcl_eraseKey st _ _ h)

theorem pull_no_excluded (cfg : Config) (env : GDriveEnv) (wm : String → Int)
    (rf : List (String × GDriveFile)) (st : SyncState) (fsys : LocalFs)
    (h : noExcludedFileKeys st) :
    noExcludedFileKeys (pull cfg env wm rf st fsys).state ∧
    (∀ rpo op, (rpo, op) ∈ (pull cfg env wm rf st fsys).trace → isTransferOp op = true →
      isExcluded rpo = false) := by
  unfold pull
  simp only []
  have hst1 : noExcludedFileKeys (updateFoldersFromListing rf st) :=
    noExcl_of_files_eq st _ (updateFolders_files rf st) h
  by_cases hok : (pullMainLoop cfg env wm rf (updateFoldersFromListing rf st) fsys).1 = true
  · rw [if_pos hok]
    refine ⟨pullStaleLoop_no_excluded _ _ _ _ _
      (pullMainLoop_no_excluded _ _ _ _ _ _ hst1), ?_⟩
    intro rpo op hop htr
    exact (pullMainLoop_trace_listed cfg env wm rf _ fsys rpo op hop).2.1
  · rw [if_neg hok]
    refine ⟨pullMainLoop_no_excluded _ _ _ _ _ _ hst1, ?_⟩
    intro rpo op hop htr
    exact (pullMainLoop_trace_listed cfg env wm rf _ fsys rpo op hop).2.1

/-- Counterexample to C5 as stated: pushing a file that lives inside a local
directory named `.DS_Store` (an excluded basename) makes `ensureFolderExists`
record that directory path as a key of the `folders` map — the folder walk
never applies the exclusion check to directory segments. -/
theorem push_excluded_folder_key_cex :
    isExcluded ".DS_Store" = true ∧
    lookupKey (push ⟨"/r", "root"⟩ okEnv [("/r/.DS_Store/f.txt", ⟨false, 1, "x"⟩)]
      ⟨[], []⟩ ["/r/.DS_Store/f.txt"]).state.folders ".DS_Store" = some "did" :=
  ⟨by decide, by decide⟩

/-- C5 amended: over any sequence of push and pull passes from a state whose
`files` map has no excluded key, the `files` map never acquires an excluded
key, and every content-transfer remote call (`upload` / `download` /
`update` / `delete`) is made for a non-excluded relative path. (The
`folders` map is NOT covered: see the counterexample.) -/
theorem runOps_no_excluded (cfg : Config) (ops : List SyncOp) (st : SyncState)
    (h : noExcludedFileKeys st) :
    noExcludedFileKeys (runOps cfg st ops).1 ∧
    (∀ rpo op, (rpo, op) ∈ (runOps cfg st ops).2 → isTransferOp op = true →
      isExcluded rpo = false) := by
  induction ops generalizing st with
  | nil => exact ⟨h, fun rpo op hop _ => absurd hop (by simp [runOps])⟩
  | cons o rest ih =>
    simp only [runOps]
    cases o with
    | pushOp env fsys paths =>
      simp only []
      have h1 := push_no_excluded cfg env fsys st paths h
      have h2 := ih _ h1.1
      refine ⟨h2.1, ?_⟩
      intro rpo op hop htr
      rcases List.mem_append.mp hop with h3 | h3
      · exact h1.2 rpo op h3 htr
      · exact h2.2 rpo op h3 htr
    | pullOp env wm rf fsys =>
      simp only []
      have h1 := pull_no_excluded cfg env wm rf st fsys h
      have h2 := ih _ h1.1
      refine ⟨h2.1, ?_⟩
      intro rpo op hop htr
      rcases List.mem_append.mp hop with h3 | h3
      · exact h1.2 rpo op h3 htr
      · exact h2.2 rpo op h3 htr

/-- Witness for the amended C5: one push of an ordinary file from the empty
state keeps the `files` map free of excluded keys. -/
theorem runOps_no_excluded_witness :
    noExcludedFileKeys (runOps ⟨"/r", "root"⟩ ⟨[], []⟩
      [SyncOp.pushOp okEnv [("/r/a.txt", ⟨false, 1, "x"⟩)] ["/r/a.txt"]]).1 :=
  (runOps_no_excluded ⟨"/r", "root"⟩
    [SyncOp.pushOp okEnv [("/r/a.txt", ⟨false, 1, "x"⟩)] ["/r/a.txt"]]
    ⟨[], []⟩ (fun _ _ => rfl)).1

end GDriveSync
